import Mathlib

/-
Verification of the discomap batch-ingestion engine against its
natural-language specification.  The Lean definitions below are shallow
embeddings of the Python source; the doc comment of each definition points to
the file and lines it embeds.
-/

namespace Discomap

/-- The `JobStatus` enumeration of `batch_manager.py` lines 21-26. -/
inductive JobStatus where
  | pending
  | running
  | completed
  | failed
deriving DecidableEq, Repr

/-- The derived status of a master job, `MasterJob.status`
(batch_manager.py lines 55-72), as a function of the statuses of its batch
jobs.  The source returns "created" for an empty batch list, then walks an
if/elif chain: `all(s == COMPLETED)`, `all(s == FAILED)`,
`any(s == RUNNING)`, `any(s == COMPLETED or s == FAILED)`, else "pending".
Python `all`/`any` over the status list are rendered as the corresponding
bounded quantifiers, which are decidable, so the function is executable. -/
def masterStatus (bs : List JobStatus) : String :=
  if bs = [] then "created"
  else if ∀ b ∈ bs, b = JobStatus.completed then "completed"
  else if ∀ b ∈ bs, b = JobStatus.failed then "failed"
  else if ∃ b ∈ bs, b = JobStatus.running then "running"
  else if ∃ b ∈ bs, b = JobStatus.completed ∨ b = JobStatus.failed then "running"
  else "pending"

/-- C1: for a master job with a non-empty batch list, the derived status is
"completed" iff every batch completed, "failed" iff every batch failed, and
otherwise it is "running" exactly when some batch is running or some batch
has reached a terminal state, and "pending" exactly otherwise. -/
theorem masterStatus_characterization (bs : List JobStatus) (hne : bs ≠ []) :
    (masterStatus bs = "completed" ↔ ∀ b ∈ bs, b = JobStatus.completed) ∧
    (masterStatus bs = "failed" ↔ ∀ b ∈ bs, b = JobStatus.failed) ∧
    ((¬ ∀ b ∈ bs, b = JobStatus.completed) → (¬ ∀ b ∈ bs, b = JobStatus.failed) →
      ((masterStatus bs = "running" ↔
          (∃ b ∈ bs, b = JobStatus.running) ∨
            ∃ b ∈ bs, b = JobStatus.completed ∨ b = JobStatus.failed) ∧
       (masterStatus bs = "pending" ↔
          ¬ ((∃ b ∈ bs, b = JobStatus.running) ∨
            ∃ b ∈ bs, b = JobStatus.completed ∨ b = JobStatus.failed)))) := by
  unfold masterStatus
  rw [if_neg hne]
  split_ifs with h1 h2 h3 h4
  · -- all batches completed
    refine ⟨iff_of_true rfl h1, ?_, fun hc _ => absurd h1 hc⟩
    constructor
    · intro h; exact absurd h (by decide)
    · intro hall
      exfalso
      obtain ⟨b, hb⟩ := List.exists_mem_of_ne_nil bs hne
      have hcb := h1 b hb
      have hfb := hall b hb
      rw [hcb] at hfb
      exact absurd hfb (by decide)
  · -- all batches failed (and not all completed)
    refine ⟨?_, iff_of_true rfl h2, fun _ hf => absurd h2 hf⟩
    constructor
    · intro h; exact absurd h (by decide)
    · intro h; exact absurd h h1
  · -- some batch running
    refine ⟨?_, ?_, ?_⟩
    · constructor
      · intro h; exact absurd h (by decide)
      · intro h; exact absurd h h1
    · constructor
      · intro h; exact absurd h (by decide)
      · intro h; exact absurd h h2
    · intro _ _
      refine ⟨iff_of_true rfl (Or.inl h3), ?_⟩
      constructor
      · intro h; exact absurd h (by decide)
      · intro h; exact absurd (Or.inl h3) h
  · -- no batch running, some batch terminal
    refine ⟨?_, ?_, ?_⟩
    · constructor
      · intro h; exact absurd h (by decide)
      · intro h; exact absurd h h1
    · constructor
      · intro h; exact absurd h (by decide)
      · intro h; exact absurd h h2
    · intro _ _
      refine ⟨iff_of_true rfl (Or.inr h4), ?_⟩
      constructor
      · intro h; exact absurd h (by decide)
      · intro h; exact absurd (Or.inr h4) h
  · -- nothing running, nothing terminal
    refine ⟨?_, ?_, ?_⟩
    · constructor
      · intro h; exact absurd h (by decide)
      · intro h; exact absurd h h1
    · constructor
      · intro h; exact absurd h (by decide)
      · intro h; exact absurd h h2
    · intro _ _
      refine ⟨?_, ?_⟩
      · constructor
        · intro h; exact absurd h (by decide)
        · intro h
          exfalso
          rcases h with h | h
          · exact h3 h
          · exact h4 h
      · constructor
        · intro _ h
          rcases h with h | h
          · exact h3 h
          · exact h4 h
        · intro _; rfl

/-- Witness for C1 at the concrete batch list `[running]`. -/
theorem masterStatus_characterization_witness :
    masterStatus [JobStatus.running] = "running" := by
  have h :=
    (masterStatus_characterization [JobStatus.running] (by decide)).2.2
      (by decide) (by decide)
  exact h.1.mpr (Or.inl ⟨JobStatus.running, by decide, rfl⟩)

/-- C2 counterexample: a master job whose two batches both reached a terminal
state, one of them failed, is reported "running" by `MasterJob.status`
(batch_manager.py lines 69-70), not "failed" as the claim states. -/
theorem mixed_outcome_not_reported_failed :
    (∀ b ∈ [JobStatus.completed, JobStatus.failed],
        b = JobStatus.completed ∨ b = JobStatus.failed) ∧
    (∃ b ∈ [JobStatus.completed, JobStatus.failed], b = JobStatus.failed) ∧
    masterStatus [JobStatus.completed, JobStatus.failed] ≠ "failed" ∧
    masterStatus [JobStatus.completed, JobStatus.failed] = "running" := by
  refine ⟨by decide, ⟨JobStatus.failed, by decide, rfl⟩, ?_, ?_⟩ <;> decide

/-- C2 amended: for a finished master job (every batch terminal), the derived
status is "failed" iff every batch failed; when at least one batch failed and
at least one completed, the job is reported "running", not "failed". -/
theorem masterStatus_finished_job (bs : List JobStatus) (hne : bs ≠ [])
    (hterm : ∀ b ∈ bs, b = JobStatus.completed ∨ b = JobStatus.failed) :
    (masterStatus bs = "failed" ↔ ∀ b ∈ bs, b = JobStatus.failed) ∧
    ((∃ b ∈ bs, b = JobStatus.failed) → (∃ b ∈ bs, b = JobStatus.completed) →
      masterStatus bs = "running") := by
  constructor
  · unfold masterStatus
    rw [if_neg hne]
    split_ifs with h1 h2 h3 h4
    · constructor
      · intro h; exact absurd h (by decide)
      · intro hall
        exfalso
        obtain ⟨b, hb⟩ := List.exists_mem_of_ne_nil bs hne
        have hcb := h1 b hb
        have hfb := hall b hb
        rw [hcb] at hfb
        exact absurd hfb (by decide)
    · exact iff_of_true rfl h2
    · constructor
      · intro h; exact absurd h (by decide)
      · intro h; exact absurd h h2
    · constructor
      · intro h; exact absurd h (by decide)
      · intro h; exact absurd h h2
    · constructor
      · intro h; exact absurd h (by decide)
      · intro h; exact absurd h h2
  · intro ⟨bf, hbf, hbf2⟩ ⟨bc, hbc, hbc2⟩
    unfold masterStatus
    rw [if_neg hne]
    rw [if_neg, if_neg, if_neg, if_pos]
    · exact ⟨bf, hbf, Or.inr hbf2⟩
    · intro ⟨br, hbr, hbr2⟩
      rcases hterm br hbr with h | h <;> rw [hbr2] at h <;> exact absurd h (by decide)
    · intro hall
      have := hall bc hbc
      rw [hbc2] at this
      exact absurd this (by decide)
    · intro hall
      have := hall bf hbf
      rw [hbf2] at this
      exact absurd this (by decide)

/-- Witness for C2 at the concrete batch list `[completed, failed]`. -/
theorem masterStatus_finished_job_witness :
    masterStatus [JobStatus.completed, JobStatus.failed] = "running" := by
  exact (masterStatus_finished_job [JobStatus.completed, JobStatus.failed]
      (by decide) (by decide)).2
    ⟨JobStatus.failed, by decide, rfl⟩ ⟨JobStatus.completed, by decide, rfl⟩

/-- The batch-splitting loop of `BatchManager.submit_file`
(batch_manager.py lines 156-163): `for i in range(0, len(urls), batch_size):
batch_urls = urls[i:i + batch_size]`.  Each iteration takes the next
`B`-element slice; the loop body never runs for an empty list, and a zero
step would raise `ValueError` in Python, rendered here as producing no
batches. -/
def chunkList (B : Nat) : List α → List (List α)
  | [] => []
  | x :: xs =>
    if _h : B = 0 then []
    else (x :: xs).take B :: chunkList B ((x :: xs).drop B)
termination_by l => l.length
decreasing_by
  simp only [List.length_drop, List.length_cons]
  omega

theorem chunkList_nil (B : Nat) : chunkList B ([] : List α) = [] := by
  rw [chunkList]

theorem chunkList_cons (B : Nat) (l : List α) (hB : B ≠ 0) (hl : l ≠ []) :
    chunkList B l = l.take B :: chunkList B (l.drop B) := by
  obtain ⟨x, xs, rfl⟩ := List.exists_cons_of_ne_nil hl
  rw [chunkList]
  rw [dif_neg hB]

theorem chunkList_eq_nil_iff (B : Nat) (l : List α) (hB : B ≠ 0) :
    chunkList B l = [] ↔ l = [] := by
  constructor
  · intro h
    by_contra hl
    rw [chunkList_cons B l hB hl] at h
    exact List.cons_ne_nil _ _ h
  · intro h
    rw [h, chunkList_nil]

/-- Concatenating the produced batches in order restores the input list. -/
theorem chunkList_flatten (B : Nat) (hB : B ≠ 0) (l : List α) :
    (chunkList B l).flatten = l := by
  have H : ∀ n (l : List α), l.length = n → (chunkList B l).flatten = l := by
    intro n
    induction n using Nat.strong_induction_on with
    | _ n ih =>
      intro l hn
      by_cases hl : l = []
      · rw [hl, chunkList_nil]
        rfl
      · have hlt : (l.drop B).length < n := by
          rw [List.length_drop]
          have := List.length_pos.mpr hl
          omega
        rw [chunkList_cons B l hB hl, List.flatten_cons,
          ih _ hlt (l.drop B) rfl, List.take_append_drop]
  exact H l.length l rfl

/-- The number of batches, characterized by the two-sided bound that pins it
to the ceiling of `l.length / B`. -/
theorem chunkList_length_bounds (B : Nat) (hB : B ≠ 0) (l : List α) :
    l.length ≤ (chunkList B l).length * B ∧
      (chunkList B l).length * B < l.length + B := by
  have H : ∀ n (l : List α), l.length = n →
      l.length ≤ (chunkList B l).length * B ∧
        (chunkList B l).length * B < l.length + B := by
    intro n
    induction n using Nat.strong_induction_on with
    | _ n ih =>
      intro l hn
      by_cases hl : l = []
      · rw [hl, chunkList_nil]
        simpa using Nat.pos_of_ne_zero hB
      · have hlen : 0 < l.length := List.length_pos.mpr hl
        rw [chunkList_cons B l hB hl]
        by_cases hd : l.drop B = []
        · have hle : l.length ≤ B := List.drop_eq_nil_iff.mp hd
          rw [hd, chunkList_nil]
          simp only [List.length_cons, List.length_nil]
          omega
        · have hlt : (l.drop B).length < n := by
            rw [List.length_drop]
            omega
          have hgt : B < l.length := by
            have := (Iff.not (List.drop_eq_nil_iff (l := l) (k := B))).mp hd
            omega
          obtain ⟨ih1, ih2⟩ := ih _ hlt (l.drop B) rfl
          rw [List.length_drop] at ih1 ih2
          have hmul : ((chunkList B (l.drop B)).length + 1) * B =
              (chunkList B (l.drop B)).length * B + B := by ring
          simp only [List.length_cons, hmul]
          omega
  exact H l.length l rfl

/-- The number of batches equals the ceiling of `l.length / B`. -/
theorem chunkList_length (B : Nat) (hB : B ≠ 0) (l : List α) :
    (chunkList B l).length = (l.length + B - 1) / B := by
  obtain ⟨h1, h2⟩ := chunkList_length_bounds B hB l
  have hBpos : 0 < B := Nat.pos_of_ne_zero hB
  refine (Nat.div_eq_of_lt_le ?_ ?_).symm
  · omega
  · have : ((chunkList B l).length + 1) * B = (chunkList B l).length * B + B := by
      ring
    omega

/-- Every batch except possibly the last holds exactly `B` URLs. -/
theorem chunkList_dropLast_length (B : Nat) (hB : B ≠ 0) (l : List α) :
    ∀ c ∈ (chunkList B l).dropLast, c.length = B := by
  have H : ∀ n (l : List α), l.length = n →
      ∀ c ∈ (chunkList B l).dropLast, c.length = B := by
    intro n
    induction n using Nat.strong_induction_on with
    | _ n ih =>
      intro l hn
      by_cases hl : l = []
      · rw [hl, chunkList_nil]
        intro c hc
        simp at hc
      · rw [chunkList_cons B l hB hl]
        by_cases hd : l.drop B = []
        · rw [hd, chunkList_nil]
          intro c hc
          simp at hc
        · have hrest : chunkList B (l.drop B) ≠ [] := by
            rw [ne_eq, chunkList_eq_nil_iff B _ hB]
            exact hd
          rw [List.dropLast_cons_of_ne_nil hrest]
          intro c hc
          rcases List.mem_cons.mp hc with hc | hc
          · subst hc
            have hgt : B < l.length := by
              have := (Iff.not (List.drop_eq_nil_iff (l := l) (k := B))).mp hd
              omega
            rw [List.length_take]
            exact Nat.min_eq_left (Nat.le_of_lt hgt)
          · have hlt : (l.drop B).length < n := by
              rw [List.length_drop]
              have := List.length_pos.mpr hl
              omega
            exact ih _ hlt (l.drop B) rfl c hc
  exact H l.length l rfl

/-- The last batch holds exactly the remainder: with `k` batches in total, it
has `l.length - B * (k - 1)` elements, which is positive and at most `B`. -/
theorem chunkList_getLast_length (B : Nat) (hB : B ≠ 0) (l : List α) :
    ∀ c, (chunkList B l).getLast? = some c →
      c.length = l.length - B * ((chunkList B l).length - 1) ∧
        0 < c.length ∧ c.length ≤ B := by
  have H : ∀ n (l : List α), l.length = n →
      ∀ c, (chunkList B l).getLast? = some c →
        c.length = l.length - B * ((chunkList B l).length - 1) ∧
          0 < c.length ∧ c.length ≤ B := by
    intro n
    induction n using Nat.strong_induction_on with
    | _ n ih =>
      intro l hn
      by_cases hl : l = []
      · rw [hl, chunkList_nil]
        intro c hc
        simp at hc
      · have hlen : 0 < l.length := List.length_pos.mpr hl
        rw [chunkList_cons B l hB hl]
        by_cases hd : l.drop B = []
        · rw [hd, chunkList_nil]
          intro c hc
          rw [List.getLast?_singleton, Option.some_inj] at hc
          subst hc
          have hle : l.length ≤ B := List.drop_eq_nil_iff.mp hd
          rw [List.length_take, Nat.min_eq_right hle]
          simp only [List.length_cons, List.length_nil]
          omega
        · have hrest : chunkList B (l.drop B) ≠ [] := by
            rw [ne_eq, chunkList_eq_nil_iff B _ hB]
            exact hd
          intro c hc
          obtain ⟨r, rs, hrr⟩ := List.exists_cons_of_ne_nil hrest
          rw [hrr, List.getLast?_cons_cons] at hc
          have hlt : (l.drop B).length < n := by
            rw [List.length_drop]
            omega
          have hc2 : (chunkList B (l.drop B)).getLast? = some c := by
            rw [hrr]
            exact hc
          obtain ⟨ih1, ih2, ih3⟩ := ih _ hlt (l.drop B) rfl c hc2
          rw [List.length_drop] at ih1
          refine ⟨?_, ih2, ih3⟩
          have hk : 0 < (chunkList B (l.drop B)).length := List.length_pos.mpr hrest
          obtain ⟨m, hm⟩ : ∃ m, (chunkList B (l.drop B)).length = m + 1 :=
            ⟨(chunkList B (l.drop B)).length - 1, by omega⟩
          rw [hm] at ih1
          simp only [List.length_cons, hm]
          simp only [Nat.add_sub_cancel] at ih1 ⊢
          have hBm : B * (m + 1) = B * m + B := by ring
          have hgt : B < l.length := by
            have := (Iff.not (List.drop_eq_nil_iff (l := l) (k := B))).mp hd
            omega
          omega
  exact H l.length l rfl

/-- A `BatchJob` as built by `submit_file` (batch_manager.py lines 29-40 and
159-162): its URL slice and its current status; the remaining fields
(identifiers, timestamps, counters) do not bear on the claims below. -/
structure BatchJob where
  urls : List String
  status : JobStatus
deriving DecidableEq

/-- A `MasterJob` (batch_manager.py lines 43-53), restricted to the fields
the claims are about. -/
structure MasterJob where
  totalUrls : Nat
  totalBatches : Nat
  batchSize : Nat
  batches : List BatchJob
deriving DecidableEq

/-- `BatchManager.submit_file` (batch_manager.py lines 141-183): slice the
URL list into batches of `batchSize`, build one pending `BatchJob` per
slice, and record the totals on the master job.  There is no emptiness
check: an empty URL list yields a master job with no batches. -/
def submitFile (urls : List String) (batchSize : Nat) : MasterJob :=
  { totalUrls := urls.length
    totalBatches := (chunkList batchSize urls).length
    batchSize := batchSize
    batches := (chunkList batchSize urls).map
      (fun c => { urls := c, status := JobStatus.pending }) }

/-- The derived status of a `MasterJob` value, `MasterJob.status` applied to
its own batch list. -/
def masterJobStatus (j : MasterJob) : String :=
  masterStatus (j.batches.map BatchJob.status)

/-- C6: `submit_file` on `N` URLs with batch size `B > 0` creates exactly
`ceil(N / B)` batch jobs; concatenating their URL slices in order restores
the input, every batch but the last holds exactly `B` URLs, and the last
batch holds the positive remainder `N - B * (k - 1)`. -/
theorem submitFile_partition (urls : List String) (B : Nat) (hB : 0 < B) :
    (submitFile urls B).totalBatches = (urls.length + B - 1) / B ∧
    ((submitFile urls B).batches.map BatchJob.urls).flatten = urls ∧
    (∀ c ∈ ((submitFile urls B).batches.map BatchJob.urls).dropLast,
      c.length = B) ∧
    (∀ c, ((submitFile urls B).batches.map BatchJob.urls).getLast? = some c →
      c.length = urls.length - B * ((submitFile urls B).totalBatches - 1) ∧
        0 < c.length ∧ c.length ≤ B) := by
  have hB0 : B ≠ 0 := Nat.pos_iff_ne_zero.mp hB
  have hmap : (submitFile urls B).batches.map BatchJob.urls = chunkList B urls := by
    simp only [submitFile, List.map_map]
    exact List.map_id (chunkList B urls)
  refine ⟨?_, ?_, ?_, ?_⟩
  · simpa [submitFile] using chunkList_length B hB0 urls
  · rw [hmap]
    exact chunkList_flatten B hB0 urls
  · rw [hmap]
    exact chunkList_dropLast_length B hB0 urls
  · rw [hmap]
    intro c hc
    simpa [submitFile] using chunkList_getLast_length B hB0 urls c hc

/-- Witness for C6 at 120 URLs and batch size 50 (the worked
example: three batches of sizes 50, 50, 20). -/
theorem submitFile_partition_witness :
    (submitFile (List.replicate 120 "u") 50).totalBatches =
      ((List.replicate 120 "u").length + 50 - 1) / 50 := by
  exact (submitFile_partition (List.replicate 120 "u") 50 (by decide)).1

/-- The number of completed batches, as counted by `MasterJob.progress`
(batch_manager.py line 77). -/
def completedBatches (j : MasterJob) : Nat :=
  (j.batches.filter (fun b => decide (b.status = JobStatus.completed))).length

/-- The `completion_pct` entry of `MasterJob.progress` (batch_manager.py
line 92): `completed / total_batches * 100` when `total_batches > 0`, else
the literal `0`.  The source additionally rounds the positive branch to two
decimal places in binary floating point for display; the exact rational
value is kept here, and the claims below only use the zero branch, where
the two coincide. -/
def completionPct (j : MasterJob) : ℚ :=
  if 0 < j.totalBatches then
    (completedBatches j : ℚ) / (j.totalBatches : ℚ) * 100
  else 0

/-- A status mutation of one batch job, as performed by `_process_batch`
(batch_manager.py lines 217, 234, 242): the batch at position `i` gets a new
status; the batches list itself is never extended or shortened after
`submit_file` builds it. -/
def setBatchStatus (j : MasterJob) (i : Nat) (st : JobStatus) : MasterJob :=
  let newBatches :=
    j.batches.mapIdx fun k b => if k = i then { b with status := st } else b
  { j with batches := newBatches }

/-- Any sequence of batch-status mutations applied in order. -/
def applyStatusUpdates (j : MasterJob) (us : List (Nat × JobStatus)) : MasterJob :=
  us.foldl (fun j u => setBatchStatus j u.1 u.2) j

theorem applyStatusUpdates_batches_nil (us : List (Nat × JobStatus)) :
    ∀ j : MasterJob, j.batches = [] →
      (applyStatusUpdates j us).batches = [] := by
  induction us with
  | nil => intro j hj; exact hj
  | cons u us ih =>
    intro j hj
    have hstep : (setBatchStatus j u.1 u.2).batches = [] := by
      simp [setBatchStatus, hj]
    exact ih (setBatchStatus j u.1 u.2) hstep

/-- C10: `submit_file` on an empty URL list still creates a master job, with
`total_urls = 0`, `total_batches = 0` and an empty batch list; its derived
status is the string "created", which lies outside the documented status
set; its `completion_pct` is 0; and since processing only ever rewrites
statuses of existing batches, the derived status stays "created" after any
sequence of batch-status updates. -/
theorem submitFile_empty_job :
    (submitFile [] 50).totalUrls = 0 ∧
    (submitFile [] 50).totalBatches = 0 ∧
    (submitFile [] 50).batches = [] ∧
    masterJobStatus (submitFile [] 50) = "created" ∧
    "created" ∉ ["pending", "running", "completed", "failed"] ∧
    completionPct (submitFile [] 50) = 0 ∧
    ∀ us : List (Nat × JobStatus),
      masterJobStatus (applyStatusUpdates (submitFile [] 50) us) = "created" := by
  have hb : (submitFile [] 50).batches = [] := by
    simp [submitFile, chunkList_nil]
  refine ⟨rfl, ?_, hb, ?_, by decide, ?_, ?_⟩
  · simp [submitFile, chunkList_nil]
  · rw [masterJobStatus, hb]
    rfl
  · rw [completionPct]
    rw [if_neg]
    simp [submitFile, chunkList_nil]
  · intro us
    rw [masterJobStatus, applyStatusUpdates_batches_nil us _ hb]
    rfl

/-
The per-file load path.  `ETLPipeline._load_to_database` (pipeline.py lines
224-278) iterates over measurement chunks; each chunk write runs inside a
`try` whose `except` (lines 270-271) logs the exception and continues with
the next chunk; the session then commits and the stats dict is returned.
A chunk write attempt is modelled by its outcome: `Except.ok n` when the
repository call returned a row count, `Except.error e` when it raised.
-/

/-- The chunk loop of `_load_to_database` (pipeline.py lines 257-271):
counts successfully written rows; a failing chunk is logged and skipped. -/
def loadChunks : List (Except String Nat) → Nat
  | [] => 0
  | Except.ok n :: rest => n + loadChunks rest
  | Except.error _ :: rest => loadChunks rest

/-- `_load_to_database` as seen by its caller (pipeline.py lines 224-278):
whatever the per-chunk outcomes were, it returns normally with the summed
row count — the inner `except` prevents any chunk-write exception from
escaping, and the session commit at line 276 still runs. -/
def loadToDatabase (chunks : List (Except String Nat)) : Except String Nat :=
  Except.ok (loadChunks chunks)

/-- The outcome of `run_from_url` for one file (pipeline.py lines 121-161
composing `process_parquet_file`, lines 63-119): `prep` is the combined
download-and-parse phase, whose exceptions propagate to the caller; a file
that reaches the load phase goes through `loadToDatabase`. -/
def runFromUrl (prep : Except String (List (Except String Nat))) :
    Except String Nat :=
  match prep with
  | Except.error e => Except.error e
  | Except.ok chunks => loadToDatabase chunks

/-- The aggregation loop of `run_batch_from_urls` (pipeline.py lines
210-219): the pair (files_processed, errors) over the per-file outcomes. -/
def runBatchCounts (files : List (Except String Nat)) : Nat × Nat :=
  files.foldl
    (fun acc r =>
      match r with
      | Except.ok _ => (acc.1 + 1, acc.2)
      | Except.error _ => (acc.1, acc.2 + 1))
    (0, 0)

/-- The sum of the row counts of the successful chunk writes. -/
def okChunkSum (chunks : List (Except String Nat)) : Nat :=
  (chunks.filterMap
    (fun r =>
      match r with
      | Except.ok n => some n
      | Except.error _ => none)).sum

/-- C3 counterexample: a file whose single chunk write fails yields a normal
(non-error) result of zero rows from the load phase, and
`run_batch_from_urls` counts that file as processed, with zero errors — the
failing write never surfaces. -/
theorem chunk_write_failure_swallowed :
    runFromUrl (Except.ok [Except.error "duplicate key"]) = Except.ok 0 ∧
    runBatchCounts [runFromUrl (Except.ok [Except.error "duplicate key"])] =
      (1, 0) := by
  exact ⟨rfl, rfl⟩

/-- C3 amended: a failing per-chunk database write is caught inside
`_load_to_database` and skipped, so the load phase always returns normally
with the sum of the successful chunks; only errors of the download-or-parse
phase surface to `run_batch_from_urls`, where they count the file as
failed while normal returns count it as processed. -/
theorem loadToDatabase_error_semantics
    (chunks : List (Except String Nat)) (e : String) :
    runFromUrl (Except.ok chunks) = Except.ok (okChunkSum chunks) ∧
    runFromUrl (Except.error e) = Except.error e ∧
    runBatchCounts [runFromUrl (Except.ok chunks), runFromUrl (Except.error e)] =
      (1, 1) := by
  have hsum : ∀ cs : List (Except String Nat), loadChunks cs = okChunkSum cs := by
    intro cs
    induction cs with
    | nil => rfl
    | cons c rest ih =>
      cases c with
      | ok n => simp [loadChunks, okChunkSum, List.filterMap_cons, ih]
      | error m => simp [loadChunks, okChunkSum, List.filterMap_cons, ih]
  refine ⟨?_, rfl, rfl⟩
  simp [runFromUrl, loadToDatabase, hsum]

/-
Upsert mode.  `_load_to_database` dispatches each chunk write on
`upsert_mode` (pipeline.py lines 261-265): `meas_repo.bulk_upsert(batch)`
when enabled, `meas_repo.bulk_copy(batch)` otherwise.  The methods that
`MeasurementRepository` actually defines are listed in
measurement_repo.py (lines 24, 46, 136, 146); `bulk_upsert` is not among
them anywhere in the repository, so the upsert call raises AttributeError,
which the per-chunk `except` then swallows.
-/

/-- The methods defined on `MeasurementRepository`
(measurement_repo.py lines 24-161). -/
def measurementRepoMethods : List String :=
  ["bulk_insert", "bulk_copy", "get_latest", "delete_time_range"]

/-- Python attribute lookup on a `MeasurementRepository` instance. -/
def hasMethod (name : String) : Bool :=
  measurementRepoMethods.contains name

/-- One chunk write as dispatched by `_load_to_database` (pipeline.py lines
261-265): a resolved method call returns the row count of the chunk (both bulk
paths return `len(measurements)`); an unresolved attribute raises. -/
def writeChunk (upsertMode : Bool) (rows : Nat) : Except String Nat :=
  if upsertMode then
    if hasMethod "bulk_upsert" then Except.ok rows
    else Except.error "AttributeError: bulk_upsert"
  else
    if hasMethod "bulk_copy" then Except.ok rows
    else Except.error "AttributeError: bulk_copy"

/-- C4: the claim fails because `bulk_upsert` does not exist on
`MeasurementRepository`.  With `upsert_mode` enabled, every chunk write
raises AttributeError, the per-chunk handler swallows it, and writing the
same 5 rows twice stores 0 rows in total, not 5 — while the default copy
path does resolve. -/
theorem upsert_mode_missing_method :
    hasMethod "bulk_upsert" = false ∧
    writeChunk true 5 = Except.error "AttributeError: bulk_upsert" ∧
    loadChunks [writeChunk true 5] + loadChunks [writeChunk true 5] = 0 ∧
    writeChunk false 5 = Except.ok 5 := by
  exact ⟨rfl, rfl, rfl, rfl⟩

/-
Timestamps.  A datetime value is modelled by its wall-clock reading (in
minutes) together with its timezone offset (in minutes east of UTC), or
`none` when the value is naive.
-/

/-- A datetime as the pipeline handles it: wall-clock minutes plus an
optional UTC offset in minutes. -/
structure PyDatetime where
  wallclock : Int
  offset : Option Int
deriving DecidableEq

/-- The UTC instant a datetime denotes: wall clock minus offset.  A naive
value denotes no definite instant. -/
def utcInstant (t : PyDatetime) : Option Int :=
  t.offset.map (fun o => t.wallclock - o)

/-- The timestamp step of `parse_measurements` (parquet_parser.py lines
266-270): a naive series is `tz_localize`d to UTC, which tags it without
changing the wall clock; a series that already carries a timezone is left
exactly as it is — no conversion to UTC happens. -/
def normalizeTime (t : PyDatetime) : PyDatetime :=
  match t.offset with
  | none => { wallclock := t.wallclock, offset := some 0 }
  | some _ => t

/-- The serialization of the `time` field in `bulk_copy`
(measurement_repo.py line 68): `strftime` formats the wall-clock reading in
the timezone of the value itself, and the format string appends the literal suffix
"+00", so the text handed to the COPY protocol always denotes the wall
clock re-tagged as UTC. -/
def serializeTime (t : PyDatetime) : PyDatetime :=
  { wallclock := t.wallclock, offset := some 0 }

/-- C5: a naive input timestamp is indeed stored as the same wall clock
tagged UTC, but a timezone-bearing input is NOT converted: an input reading
12:00 at offset +02:00 (wallclock 720, offset 120) denotes 10:00 UTC
(instant 600), yet the stored value denotes 12:00 UTC (instant 720) — the
instant is shifted by the offset of the input. -/
theorem timezone_not_converted :
    utcInstant (serializeTime (normalizeTime ⟨720, none⟩)) = some 720 ∧
    utcInstant ⟨720, some 120⟩ = some 600 ∧
    utcInstant (serializeTime (normalizeTime ⟨720, some 120⟩)) = some 720 := by
  exact ⟨rfl, rfl, rfl⟩

/-
Required-column handling of the parser, `ParquetParser.parse_measurements`
(parquet_parser.py lines 233-322).
-/

/-- Column-name resolution (parquet_parser.py lines 246-252): the primary
source name when the dataframe has it, otherwise the alternative name. -/
def resolveColumn (cols : List String) (primary alt : String) : String :=
  if primary ∈ cols then primary else alt

/-- The required-column check at parquet_parser.py line 254: the resolved
time, sampling-point and pollutant columns must all be present. -/
def requiredPresent (cols : List String) : Bool :=
  decide (resolveColumn cols "DatetimeBegin" "Start" ∈ cols) &&
  decide (resolveColumn cols "SamplingPoint" "Samplingpoint" ∈ cols) &&
  decide (resolveColumn cols "AirPollutantCode" "Pollutant" ∈ cols)

/-- One raw input row, restricted to the three required fields (each may be
null). -/
structure RawRow where
  time : Option PyDatetime
  samplingPoint : Option String
  pollutant : Option Int
deriving DecidableEq

/-- One canonical measurement row, restricted to the three required
fields. -/
structure MeasurementRow where
  time : PyDatetime
  samplingPointId : String
  pollutantCode : Int
deriving DecidableEq

/-- `parse_measurements` (parquet_parser.py lines 233-322), restricted to
the required fields: when a required column has no source column it logs an
error and returns the empty list (lines 254-256) — it does not raise;
otherwise rows with a null required field are dropped by the `valid_mask`
filter (lines 259-260) and the time column is normalized (lines 266-270). -/
def parseMeasurements (cols : List String) (rows : List RawRow) :
    List MeasurementRow :=
  if requiredPresent cols then
    rows.filterMap
      (fun r =>
        match r.time, r.samplingPoint, r.pollutant with
        | some t, some sp, some pc =>
          some { time := normalizeTime t, samplingPointId := sp, pollutantCode := pc }
        | _, _, _ => none)
  else []

/-- The measurements channel of `parse_all` (parquet_parser.py lines
324-356): `read_parquet` (lines 68-87) propagates whatever exception
`pq.read_table` raises on an unreadable file — no `ParseError` type exists
anywhere in the code — and a readable file is handed to
`parseMeasurements`, which never raises. -/
def parseFileMeasurements
    (file : Except String (List String × List RawRow)) :
    Except String (List MeasurementRow) :=
  match file with
  | Except.error e => Except.error e
  | Except.ok (cols, rows) => Except.ok (parseMeasurements cols rows)

/-- C7 counterexample: a readable file whose only column is `Value` — so
every required canonical column is unresolvable — parses successfully into
an empty row sequence instead of failing. -/
theorem missing_columns_returns_empty :
    requiredPresent ["Value"] = false ∧
    parseFileMeasurements
        (Except.ok (["Value"],
          [{ time := some ⟨0, none⟩, samplingPoint := some "DE/SPO-1",
             pollutant := some 5 }])) =
      Except.ok [] := by
  exact ⟨rfl, rfl⟩

/-- C7 amended: when any required canonical column has no matching source
column, `parse_measurements` returns the empty row list and the file parse
succeeds with zero measurements; an unreadable file propagates the
underlying reader exception. -/
theorem parseMeasurements_missing_semantics
    (cols : List String) (rows : List RawRow) (e : String)
    (h : requiredPresent cols = false) :
    parseFileMeasurements (Except.ok (cols, rows)) = Except.ok [] ∧
    parseFileMeasurements (Except.error e) = Except.error e := by
  constructor
  · simp [parseFileMeasurements, parseMeasurements, h]
  · rfl

/-- Witness for C7 at the concrete column list `["Value"]`. -/
theorem parseMeasurements_missing_semantics_witness :
    parseFileMeasurements
        (Except.ok (["Value"], ([] : List RawRow))) = Except.ok [] ∧
    parseFileMeasurements
        (Except.error (α := List String × List RawRow) "file does not exist") =
      Except.error "file does not exist" := by
  exact parseMeasurements_missing_semantics ["Value"] [] "file does not exist" rfl

/-
The request layer for ingestion submissions.
-/

/-- Python `str.splitlines` over the decoded text, modelled on the
character list with the newline separator (the variants Python additionally
splits on — "\r\n", "\r" — differ only by empty or whitespace lines, which
the subsequent strip-and-filter discards anyway; likewise the trailing
empty piece produced here for text ending in a newline). -/
def splitLines : List Char → List (List Char)
  | [] => [[]]
  | c :: rest =>
    if c = '\n' then [] :: splitLines rest
    else
      match splitLines rest with
      | [] => [[c]]
      | l :: ls => (c :: l) :: ls

/-- Python `str.strip`: drop leading and trailing whitespace. -/
def stripLine (l : List Char) : List Char :=
  ((l.dropWhile Char.isWhitespace).reverse.dropWhile Char.isWhitespace).reverse

/-- URL extraction in `upload_url_file` (api.py lines 64-69): split the
uploaded text into lines, strip each, keep the lines that are non-empty and
do not start with the character "#". -/
def extractUrls (text : List Char) : List (List Char) :=
  ((splitLines text).map stripLine).filter
    (fun l => !l.isEmpty && !(l.head? == some '#'))

/-- The exceptions that can leave the try-block of `upload_url_file`. -/
inductive PyExc where
  | httpException (status : Nat) (detail : String)
  | unicodeDecodeError
deriving DecidableEq

/-- The try-block of `upload_url_file` (api.py lines 59-89): decode the
body (a failure raises UnicodeDecodeError), extract URLs, raise
`HTTPException(status_code=400, detail="No valid URLs found in file")` when
none remain (line 72), otherwise call `submit_file` and answer 200.  The
boolean of the result records whether `submit_file` ran, i.e. whether a
master job was created. -/
def uploadBody (decoded : Except Unit (List Char)) : Except PyExc (Nat × Bool) :=
  match decoded with
  | Except.error _ => Except.error PyExc.unicodeDecodeError
  | Except.ok text =>
    if (extractUrls text).isEmpty then
      Except.error (PyExc.httpException 400 "No valid URLs found in file")
    else
      Except.ok (200, true)

/-- The except-chain of `upload_url_file` (api.py lines 91-95), in source
order: `except UnicodeDecodeError` answers 400, then the catch-all
`except Exception` answers 500.  `fastapi.HTTPException` subclasses
`Exception`, so the HTTPException(400) raised inside the try-block is
caught by the catch-all and re-raised as a 500. -/
def uploadUrlFile (decoded : Except Unit (List Char)) : Nat × Bool :=
  match uploadBody decoded with
  | Except.ok r => r
  | Except.error PyExc.unicodeDecodeError => (400, false)
  | Except.error (PyExc.httpException _ _) => (500, false)

/-- `BatchETLRequest.validate_urls` (etl_async.py lines 33-40): a pydantic
field validator that raises ValueError on an empty list or on more than 50
URLs. -/
def validateUrls (urls : List String) : Except String (List String) :=
  if urls.isEmpty then Except.error "Lista URLs vuota"
  else if 50 < urls.length then Except.error "Massimo 50 URL per batch"
  else Except.ok urls

/-- The HTTP status of `POST /async/batch` (etl_async.py lines 66-129) for
a given body: a ValueError raised by a pydantic field validator surfaces as
the RequestValidationError of FastAPI, which the framework answers with 422 (no
custom exception handler is registered anywhere under src/); a valid body
reaches the handler, which answers 202 and creates the job. -/
def batchEndpointStatus (urls : List String) : Nat :=
  match validateUrls urls with
  | Except.error _ => 422
  | Except.ok _ => 202

/-- C8: on an empty effective URL list no master job is created, but
neither ingestion path answers 400.  On the uploaded-file path, the
`HTTPException(400)` (raised at api.py line 72 for a file of comments and
blank lines) is swallowed by its catch-all and turned into a 500, and the
empty-list ValueError of the JSON path surfaces as a 422 validation response. -/
theorem empty_submission_responses :
    extractUrls ("# EEA urls\n\n".toList) = [] ∧
    uploadBody (Except.ok ("# EEA urls\n\n".toList)) =
      Except.error (PyExc.httpException 400 "No valid URLs found in file") ∧
    uploadUrlFile (Except.ok ("# EEA urls\n\n".toList)) = (500, false) ∧
    batchEndpointStatus [] = 422 := by
  refine ⟨by decide, by rfl, by rfl, rfl⟩

/-
Concurrency caps.  Batch execution is gated by `asyncio.Semaphore(G)`
(`BatchManager.__init__`, batch_manager.py line 134): every batch run goes
through `_process_batch_safe` (lines 209-213), which enters the semaphore
before `_process_batch` and leaves it afterwards.  Within one batch,
`run_batch_from_urls` (pipeline.py lines 193-209) gates every per-file task
by `asyncio.Semaphore(max_concurrent_files)`, and the batch manager
constructs its pipelines with `max_concurrent_files=3` (batch_manager.py
line 225).  The cooperative scheduler is modelled as a transition system
over task counts: a task may enter the gated section only by decrementing a
positive semaphore counter, and increments it when leaving.
-/

/-- The `max_concurrent_files` value the batch manager passes to
`ETLPipeline` (batch_manager.py line 225). -/
def batchManagerMaxConcurrentFiles : Nat := 3

/-- A scheduler state: the semaphore counter and the number of tasks that
are waiting to enter, currently inside, and finished with the gated
section. -/
structure SemState where
  counter : Nat
  waiting : Nat
  running : Nat
  finished : Nat
deriving DecidableEq

/-- The two scheduler transitions of the `async with semaphore` discipline:
a waiting task acquires the semaphore (only when the counter is positive)
and becomes running; a running task completes, releasing the semaphore. -/
inductive SemStep : SemState → SemState → Prop where
  | acquire (s : SemState) (hc : 0 < s.counter) (hw : 0 < s.waiting) :
      SemStep s ⟨s.counter - 1, s.waiting - 1, s.running + 1, s.finished⟩
  | release (s : SemState) (hr : 0 < s.running) :
      SemStep s ⟨s.counter + 1, s.waiting, s.running - 1, s.finished + 1⟩

/-- The initial state for `n` submitted tasks under a semaphore of size
`g`: `asyncio.Semaphore(g)` starts with counter `g`, and no task has
entered yet. -/
def semInit (g n : Nat) : SemState :=
  ⟨g, n, 0, 0⟩

/-- States reachable from `s` by scheduler transitions. -/
inductive SemReachable (init : SemState) : SemState → Prop where
  | refl : SemReachable init init
  | step {s t : SemState} (hs : SemReachable init s) (hst : SemStep s t) :
      SemReachable init t

theorem semReachable_counter_add_running (g n : Nat) (s : SemState)
    (h : SemReachable (semInit g n) s) : s.counter + s.running = g := by
  induction h with
  | refl => simp [semInit]
  | step hs hst ih =>
    cases hst with
    | acquire hc hw => simp only at ih ⊢; omega
    | release hr => simp only at ih ⊢; omega

/-- C9: in every state reachable under the batch-level semaphore discipline
from an initial state with semaphore size `G`, at most `G` batch runs are
inside `_process_batch`; and in every state reachable under the file-level
semaphore discipline of a single batch, at most 3 files are concurrently
processed — the batch manager fixes `max_concurrent_files` at 3. -/
theorem concurrency_caps (G nb nf : Nat) (sb sf : SemState)
    (hb : SemReachable (semInit G nb) sb)
    (hf : SemReachable (semInit batchManagerMaxConcurrentFiles nf) sf) :
    sb.running ≤ G ∧
    sf.running ≤ batchManagerMaxConcurrentFiles ∧
    batchManagerMaxConcurrentFiles = 3 := by
  refine ⟨?_, ?_, rfl⟩
  · have := semReachable_counter_add_running G nb sb hb
    omega
  · have := semReachable_counter_add_running
      batchManagerMaxConcurrentFiles nf sf hf
    omega

/-- Witness for C9: a concrete two-step trace under a semaphore of size 1
(one task acquires, a second must keep waiting) and the empty trace at the
file level. -/
theorem concurrency_caps_witness :
    (⟨0, 1, 1, 0⟩ : SemState).running ≤ 1 ∧
    (semInit batchManagerMaxConcurrentFiles 5).running ≤
      batchManagerMaxConcurrentFiles ∧
    batchManagerMaxConcurrentFiles = 3 := by
  refine concurrency_caps 1 2 5 ⟨0, 1, 1, 0⟩
    (semInit batchManagerMaxConcurrentFiles 5) ?_ SemReachable.refl
  exact SemReachable.step SemReachable.refl
    (SemStep.acquire (semInit 1 2) (by decide) (by decide))

end Discomap
